import Mathlib

/-!
Verification of the JavaScriptPropTypes renderer
(src/src/quicktype-core/language/JavaScriptPropTypes.ts).

The development shallowly embeds the validator synthesizer
(`typeMapTypeFor`, lines 115-148), the per-property rule
(`typeMapTypeForProperty`, lines 150-156), the emission pass
(`emitTypes`, lines 173-252, including the ordering loop at lines
202-226), the object body emitter (`emitObject`, lines 254-263) and the
driver (`emitSourceStructure`, lines 265-275).

Modelling conventions, stated once here:
* `Name` objects produced by the external Namer are identified by `Nat`
  ids; reference equality (the `===` comparison of the ordering loop)
  becomes equality of ids.  Rendering a name goes through an abstract
  namer context.
* `Sourcelike` arrays of the TypeScript code become the `Sourcelike`
  inductive below; gathered source, which the spec describes as "an
  ordered sequence of emit-tokens, each either literal text or a Name
  reference", is obtained by flattening to a `List Tok`.
* The fatal `panic` calls of the synthesizer are modelled as a
  distinguished literal token; a theorem shows it never occurs in any
  synthesized expression, i.e. those branches are unreachable.
* Blank-line and indentation management lives in the external
  `Renderer` base class and is not part of the emitted token model.
-/

/-- Emit token: either literal text or a reference to a named identity.
This is the flattened form of gathered source that the ordering loop
scans for dependencies. -/
inductive Tok where
  | lit (s : String)
  | name (id : Nat)
deriving DecidableEq, Repr

mutual
/-- Structural type model, after the upstream graph construction.  The
constructors follow the dispatch order of `matchType` in
`typeMapTypeFor` (lines 120-141): any, null, bool, integer, double,
string, array, class, map, enum, union, transformed string.  Named
object and enum nodes carry the id of their assigned `Name`.  Union
members are a mutually inductive list so that all recursion below is
structural. -/
inductive PType where
  | anyT
  | nullT
  | boolT
  | integerT
  | doubleT
  | stringT
  | arrayT (items : PType)
  | classT (id : Nat)
  | mapT (values : PType)
  | enumT (id : Nat)
  | unionT (members : PTypeList)
  | transformedStringT
inductive PTypeList where
  | nil
  | cons (head : PType) (tail : PTypeList)
end

/-- Kind string of a type, as used by the `t.kind` checks of the
renderer (the transformed-string kind stands for the family of
date/time/uuid kinds, none of which is "class", "object", "enum" or
"array"). -/
def PType.kind : PType → String
  | .anyT => "any"
  | .nullT => "null"
  | .boolT => "bool"
  | .integerT => "integer"
  | .doubleT => "double"
  | .stringT => "string"
  | .arrayT _ => "array"
  | .classT _ => "class"
  | .mapT _ => "map"
  | .enumT _ => "enum"
  | .unionT _ => "union"
  | .transformedStringT => "date-time"

/-- Id of the assigned Name of a named (class or enum) type; the
fallback 0 is only reachable for unnamed kinds, which the callers guard
against. -/
def PType.namedId : PType → Nat
  | .classT i => i
  | .enumT i => i
  | _ => 0

/-- PrimitiveType test, mirroring `type instanceof PrimitiveType` of the
top-level emission (line 233): primitive kinds including transformed
strings. -/
def PType.isPrimitive : PType → Bool
  | .anyT => true
  | .nullT => true
  | .boolT => true
  | .integerT => true
  | .doubleT => true
  | .stringT => true
  | .transformedStringT => true
  | _ => false

/-- Items of an array type, mirroring the `(type as any).items` cast at
line 243; only applied under the `kind === "array"` guard. -/
def PType.itemsOf : PType → PType
  | .arrayT items => items
  | t => t

mutual
/-- Sourcelike values of the renderer: literal text, a Name reference,
or an array of Sourcelike.  The list is mutually inductive so that all
recursion below is structural. -/
inductive Sourcelike where
  | lit (s : String)
  | name (id : Nat)
  | seq (xs : SLList)
inductive SLList where
  | nil
  | cons (head : Sourcelike) (tail : SLList)
end

/-- Conversion from ordinary lists, used to write Sourcelike arrays. -/
def SLList.ofList : List Sourcelike → SLList
  | [] => .nil
  | x :: xs => .cons x (SLList.ofList xs)

/-- Shorthand for a Sourcelike array literal. -/
def sl (xs : List Sourcelike) : Sourcelike :=
  .seq (SLList.ofList xs)

/-- Message of the two `panic` calls at lines 129 and 131; the calls are
modelled as this distinguished literal in the output. -/
def panicMsg : String := "Should already be handled."

mutual
/-- Validator synthesizer `typeMapTypeFor(t, required)` (lines 115-148).
The guard at line 116 returns the underscore-prefixed named identity for
class, object and enum kinds; the `matchType` dispatch covers the other
kinds; when `required` is set the result is wrapped in a one-element
array (line 144).  `typeMapChildren` is the `map` over union members at
lines 133-135. -/
def typeMapTypeFor (t : PType) (required : Bool) : Sourcelike :=
  if ["class", "object", "enum"].contains t.kind then
    sl [.lit "_", .name t.namedId]
  else
    let m : Sourcelike :=
      match t with
      | .anyT => .lit "PropTypes.any"
      | .nullT => .lit "PropTypes.any"
      | .boolT => .lit "PropTypes.bool"
      | .integerT => .lit "PropTypes.number"
      | .doubleT => .lit "PropTypes.number"
      | .stringT => .lit "PropTypes.string"
      | .arrayT items => sl [.lit "PropTypes.arrayOf(", typeMapTypeFor items false, .lit ")"]
      | .classT _ => .lit panicMsg
      | .mapT _ => .lit "PropTypes.object"
      | .enumT _ => .lit panicMsg
      | .unionT ms =>
          sl ([Sourcelike.lit "PropTypes.oneOfType(["] ++
              List.intersperse (Sourcelike.lit ", ") (typeMapChildren ms) ++
              [Sourcelike.lit "])"])
      | .transformedStringT => .lit "PropTypes.string"
    if required then sl [m] else m

def typeMapChildren : PTypeList → List Sourcelike
  | .nil => []
  | .cons t ts => typeMapTypeFor t false :: typeMapChildren ts
end

mutual
/-- Flattening of Sourcelike to the emit-token sequence. -/
def flatten : Sourcelike → List Tok
  | .lit s => [.lit s]
  | .name i => [.name i]
  | .seq xs => flattenL xs
def flattenL : SLList → List Tok
  | .nil => []
  | .cons x xs => flatten x ++ flattenL xs
end

mutual
/-- True when no literal of the expression is the panic marker. -/
def panicFree : Sourcelike → Bool
  | .lit s => !(s == panicMsg)
  | .name _ => true
  | .seq xs => panicFreeL xs
def panicFreeL : SLList → Bool
  | .nil => true
  | .cons x xs => panicFree x && panicFreeL xs
end

/-- Modelled from the spec: the external Namer and string-support
collaborators (`Naming.ts`, `support/Strings.ts`, not under src/).  Per
section 6 of the spec the Namer deterministically assigns legal, unique
identifiers for named types and enum cases, and property keys are
escaped for embedding as string literals.  The three fields are those
deterministic functions. -/
structure NamerCtx where
  typeName : Nat → String
  caseName : String → String
  escape : String → String

/-- Rendering of one token to output text. -/
def renderTok (nm : NamerCtx) : Tok → String
  | .lit s => s
  | .name i => nm.typeName i

/-- Rendering of a token list to output text. -/
def renderToks (nm : NamerCtx) (l : List Tok) : String :=
  String.join (l.map (renderTok nm))

/-- Rendering of a Sourcelike expression to output text. -/
def renderSL (nm : NamerCtx) (s : Sourcelike) : String :=
  renderToks nm (flatten s)

/-- Class property as handed to `forEachClassProperty`: the JSON key of
the property, its type, and its optionality flag. -/
structure ClassProperty where
  jsonName : String
  type : PType
  isOptional : Bool

/-- Named object definition: the id of its assigned Name and its
declared properties in order. -/
structure ObjDef where
  id : Nat
  props : List ClassProperty

/-- Named enum definition: the id of its assigned Name and its declared
case labels in order. -/
structure EnumDef where
  id : Nat
  cases : List String

/-- Input of the emission pass: the named objects, named enums and top
levels of the type graph, each in the stable traversal order supplied by
the external graph (`forEachObject`, `forEachEnum`,
`forEachTopLevel`).  A top level is its assigned Name id and its type. -/
structure Graph where
  objects : List ObjDef
  enums : List EnumDef
  topLevels : List (Nat × PType)

/-- Per-property rule `typeMapTypeForProperty` (lines 150-156): the
required case returns the full synthesized validator, the optional case
returns the literal array `["PropType.any"]`. -/
def typeMapTypeForProperty (p : ClassProperty) : Sourcelike :=
  let typeMap := typeMapTypeFor p.type true
  if !p.isOptional then typeMap
  else sl [.lit "PropType.any"]

/-- Lines of `emitObject` (lines 254-263): the shape header naming the
object, one line per property with the escaped JSON key, and the
closing line. -/
def objectBodyLines (nm : NamerCtx) (o : ObjDef) : List (List Tok) :=
  [[Tok.lit "_", Tok.name o.id, Tok.lit " = PropTypes.shape(\x7b"]] ++
  o.props.map (fun p =>
    [Tok.lit ("\"" ++ nm.escape p.jsonName ++ "\""), Tok.lit ": "] ++
    flatten (typeMapTypeForProperty p) ++ [Tok.lit ","]) ++
  [[Tok.lit "\x7d);"]]

/-- Gathered source of one object body as a flat token sequence; this is
what the ordering loop scans (spec section 3, ValidatorExpression). -/
def objectBodyTokens (nm : NamerCtx) (o : ObjDef) : List Tok :=
  (objectBodyLines nm o).flatten

/-- Placeholder declaration `let _<name>;` hoisted for every object
(lines 176-178). -/
def hoistLine (o : ObjDef) : List Tok :=
  [Tok.lit "let _", Tok.name o.id, Tok.lit ";"]

/-- Enum emission (lines 180-191): the case loop pushes a quoted case
name and a separator per case, the final `options.pop()` drops the
trailing separator, and the line is the `oneOfType` combinator over the
options. -/
def enumLine (nm : NamerCtx) (e : EnumDef) : List Tok :=
  let options : List Tok :=
    (e.cases.flatMap (fun c =>
      [Tok.lit "\x27", Tok.lit (nm.caseName c), Tok.lit "\x27", Tok.lit ", "])).dropLast
  [Tok.lit "const _", Tok.name e.id, Tok.lit " = PropTypes.oneOfType(["] ++
    options ++ [Tok.lit "]);"]

/-- Truthiness of a token, as tested by the dependency filter
`source.filter((value) => value as Name)` at line 208: only the empty
string is falsy. -/
def truthy : Tok → Bool
  | .lit s => !(s == "")
  | .name _ => true

/-- Ordinal computation of the ordering loop (lines 203-222): scan the
filtered body tokens, and for every entry `depIndex` of the current
output list whose key Name the token equals, raise the ordinal to
`depIndex + 1` (one past the ORIGINAL index of the dependency, which is
the value stored in the list, not its position). -/
def ordinalFor (mapKey : List Nat) (order : List Nat) (source : List Tok) : Nat :=
  let names := source.filter truthy
  names.foldl (fun ord tok =>
    order.foldl (fun o2 depIndex =>
      if tok = Tok.name (mapKey.getD depIndex 0) then max o2 (depIndex + 1) else o2)
      ord)
    0

/-- Insertion `order.splice(ordinal, 0, index)` at line 225; `take` and
`drop` clamp exactly as splice does for positions past the end. -/
def orderInsert (order : List Nat) (ordinal : Nat) (index : Nat) : List Nat :=
  order.take ordinal ++ index :: order.drop ordinal

/-- Ordering loop of `emitTypes` (lines 193-226): process the
definitions in original order, inserting each original index at the
computed ordinal. -/
def computeOrder (mapKey : List Nat) (mapValue : List (List Tok)) : List Nat :=
  (List.range mapKey.length).foldl (fun order index =>
    orderInsert order (ordinalFor mapKey order (mapValue.getD index [])) index) []

/-- Modelled from the spec: the insertion-ordinal rule as the claim
words it, "compute that dependency POSITION in the current output list;
the insertion ordinal is the maximum of one past each such dependency
position".  It differs from `ordinalFor` in using the position `j`
inside the output list instead of the stored original index. -/
def claimedOrdinalFor (mapKey : List Nat) (order : List Nat) (source : List Tok) : Nat :=
  let names := source.filter truthy
  names.foldl (fun ord tok =>
    (List.range order.length).foldl (fun o2 j =>
      if tok = Tok.name (mapKey.getD (order.getD j 0) 0) then max o2 (j + 1) else o2)
      ord)
    0

/-- Modelled from the spec: the ordering loop as the claim words it,
inserting at the position-based ordinal. -/
def claimedComputeOrder (mapKey : List Nat) (mapValue : List (List Tok)) : List Nat :=
  (List.range mapKey.length).foldl (fun order index =>
    orderInsert order (claimedOrdinalFor mapKey order (mapValue.getD index [])) index) []

/-- Top-level binding emission (lines 232-251): a primitive root wraps
its synthesized validator inline, an array root wraps an inline
`arrayOf` over its item type, and every other root aliases the
underscore-prefixed identity of its own name. -/
def topLevelLines (_nm : NamerCtx) (tl : Nat × PType) : List (List Tok) :=
  if tl.2.isPrimitive then
    [[Tok.lit "export const ", Tok.name tl.1, Tok.lit " = "] ++
      flatten (typeMapTypeFor tl.2 true) ++ [Tok.lit ";"]]
  else if tl.2.kind = "array" then
    [[Tok.lit "export const ", Tok.name tl.1, Tok.lit " = PropTypes.arrayOf("] ++
      flatten (typeMapTypeFor tl.2.itemsOf true) ++ [Tok.lit ");"]]
  else
    [[Tok.lit "export const ", Tok.name tl.1, Tok.lit " = _", Tok.name tl.1, Tok.lit ";"]]

/-- Emission pass `emitTypes` (lines 173-252): hoisted object
placeholders, enum lines, object bodies in the computed order, then the
top-level bindings. -/
def emitTypes (nm : NamerCtx) (g : Graph) : List (List Tok) :=
  let hoist := g.objects.map hoistLine
  let enums := g.enums.map (enumLine nm)
  let mapKey := g.objects.map (fun o => o.id)
  let mapValue := g.objects.map (objectBodyLines nm)
  let order := computeOrder mapKey (mapValue.map List.flatten)
  let ordered := order.flatMap (fun i => mapValue.getD i [])
  let tops := g.topLevels.flatMap (topLevelLines nm)
  hoist ++ enums ++ ordered ++ tops

/-- Driver `emitSourceStructure` (lines 265-275) with no caller-supplied
leading comments: the usage comment, the import line, then the types. -/
def emitSourceStructure (nm : NamerCtx) (g : Graph) : List (List Tok) :=
  [[Tok.lit "// For use with proptypes."],
   [Tok.lit "import PropTypes from \"prop-types\";"]] ++ emitTypes nm g

/-- Full rendered output text of one pass. -/
def renderOutput (nm : NamerCtx) (g : Graph) : String :=
  String.intercalate "\n" ((emitSourceStructure nm g).map (renderToks nm))

/-- Name ids referenced by a token sequence. -/
def nameIds (l : List Tok) : List Nat :=
  l.filterMap (fun t => match t with | .name i => some i | _ => none)

/-- Well-formedness of a graph for emission: every name referenced from
an object body is the id of a declared object or enum of the graph. -/
def wellFormedRefs (nm : NamerCtx) (g : Graph) : Bool :=
  g.objects.all (fun o =>
    (nameIds (objectBodyTokens nm o)).all (fun i =>
      (g.objects.map (fun o2 => o2.id) ++ g.enums.map (fun e => e.id)).contains i))

/-- Reference relation between definitions, at the level the ordering
loop observes it: definition `i` references definition `j` when the key
Name of `j` occurs among the body tokens of `i` (a definition trivially
contains its own name in its header, so self edges are excluded). -/
def refsB (mapKey : List Nat) (bodies : List (List Tok)) (i j : Nat) : Bool :=
  decide (i ≠ j) && (bodies.getD i []).contains (Tok.name (mapKey.getD j 0))

/-- Reference form of the per-case literal list of an enum line: one
quoted case per declared case, separated by commas, in declared order.
Compared against the push-then-pop construction of `enumLine`. -/
def litCases (nm : NamerCtx) : List String → List Tok
  | [] => []
  | [c] => [Tok.lit "\x27", Tok.lit (nm.caseName c), Tok.lit "\x27"]
  | c :: c2 :: rest =>
      [Tok.lit "\x27", Tok.lit (nm.caseName c), Tok.lit "\x27", Tok.lit ", "] ++
      litCases nm (c2 :: rest)

/-- Concrete namer used by witnesses and counterexamples: a fixed type
name, identity case names, identity escaping. -/
def nm0 : NamerCtx :=
  { typeName := fun _ => "TL", caseName := fun s => s, escape := fun s => s }

/-- Concrete acyclic three-object graph refuting the topological-order
claim: objects A (id 0, no properties), B (id 1, no properties) and C
(id 2, one required property of type A).  The only cross reference is C
to A. -/
def cGraph : Graph :=
  { objects :=
      [ { id := 0, props := [] },
        { id := 1, props := [] },
        { id := 2, props := [{ jsonName := "a", type := .classT 0, isOptional := false }] } ],
    enums := [],
    topLevels := [] }

/-- Keys of the counterexample graph, as the ordering loop sees them. -/
def cKeys : List Nat := cGraph.objects.map (fun o => o.id)

/-- Flattened bodies of the counterexample graph, as the ordering loop
scans them. -/
def cBodies : List (List Tok) := cGraph.objects.map (objectBodyTokens nm0)

/-- Rank function witnessing that the reference graph of `cGraph` is
acyclic: the only edge goes from rank 1 down to rank 0. -/
def cRank : Nat → Nat
  | 2 => 1
  | _ => 0

/-- Concrete mutually recursive two-object graph: A (id 0) has a
required property of type B, and B (id 1) has a required property of
type A; A is also the lone top level. -/
def mGraph : Graph :=
  { objects :=
      [ { id := 0, props := [{ jsonName := "b", type := .classT 1, isOptional := false }] },
        { id := 1, props := [{ jsonName := "a", type := .classT 0, isOptional := false }] } ],
    enums := [],
    topLevels := [(0, .classT 0)] }

/-- Alternative namer with the same behaviour as `nm0`, used to witness
determinism across two independently constructed namer instances. -/
def nm0b : NamerCtx :=
  { typeName := fun _ => "TL", caseName := fun s => s, escape := fun s => s }

/-- Declaration prefix of `emitTypes`: the hoisted object placeholders
followed by the enum constant lines; every named identity of the graph
is declared by one of these lines. -/
def hoistDecls (nm : NamerCtx) (g : Graph) : List (List Tok) :=
  g.objects.map hoistLine ++ g.enums.map (enumLine nm)

/-- Object bodies of `emitTypes` in the order chosen by the ordering
loop, each body a list of lines. -/
def orderedBodies (nm : NamerCtx) (g : Graph) : List (List (List Tok)) :=
  (computeOrder (g.objects.map (fun o => o.id))
      ((g.objects.map (objectBodyLines nm)).map List.flatten)).map
    (fun i => (g.objects.map (objectBodyLines nm)).getD i [])

lemma flatten_sl_singleton (m : Sourcelike) : flatten (sl [m]) = flatten m := by
  simp [sl, SLList.ofList, flatten, flattenL]

lemma renderSL_sl_singleton (nm : NamerCtx) (m : Sourcelike) :
    renderSL nm (sl [m]) = renderSL nm m := by
  simp [renderSL, flatten_sl_singleton]

/-- C10: for every type, the synthesized validator renders to the same
output text whether or not the required flag is set: the flag only wraps
the expression in a one-element array, which flattening erases. -/
theorem typeMapTypeFor_required_irrelevant (nm : NamerCtx) (t : PType) :
    renderSL nm (typeMapTypeFor t true) = renderSL nm (typeMapTypeFor t false) := by
  unfold typeMapTypeFor
  split
  · rfl
  · simp only [if_true, if_false, Bool.false_eq_true]
    exact renderSL_sl_singleton nm _

/-- C7: the synthesizer maps every Map type to the generic untyped
object validator, independently of the value type and of the required
flag up to wrapping; two maps with different value types synthesize to
identical expressions. -/
theorem map_type_discards_values (nm : NamerCtx) (v1 v2 : PType) (req : Bool) :
    typeMapTypeFor (.mapT v1) req = typeMapTypeFor (.mapT v2) req
    ∧ renderSL nm (typeMapTypeFor (.mapT v1) req) = "PropTypes.object" := by
  cases req <;> exact ⟨rfl, rfl⟩

/-- C2: at the failing input (an optional property), the emitted
validator is the literal `PropType.any`, which is not the accept
anything validator `PropTypes.any` the synthesizer produces for the Any
type (the code misspells the imported `PropTypes` binding). -/
theorem optional_property_validator_misspelled :
    renderSL nm0 (typeMapTypeForProperty
      { jsonName := "age", type := .integerT, isOptional := true }) = "PropType.any"
    ∧ renderSL nm0 (typeMapTypeFor .anyT true) = "PropTypes.any"
    ∧ renderSL nm0 (typeMapTypeForProperty
        { jsonName := "age", type := .integerT, isOptional := true })
      ≠ renderSL nm0 (typeMapTypeFor .anyT true) := by
  refine ⟨rfl, rfl, ?_⟩
  decide

/-- C3 counterexample: a map root with no associated named type (a map
of strings) is emitted as an alias of the underscore-prefixed binding
name, not as an exported binding wrapping the inline synthesized
expression `PropTypes.object`. -/
theorem map_root_not_inlined :
    renderToks nm0 ((topLevelLines nm0 (5, .mapT .stringT)).flatten) = "export const TL = _TL;"
    ∧ renderToks nm0 ((topLevelLines nm0 (5, .mapT .stringT)).flatten)
      ≠ "export const TL = " ++ renderSL nm0 (typeMapTypeFor (.mapT .stringT) true) ++ ";" := by
  refine ⟨rfl, ?_⟩
  decide

/-- C3 amended: every root that is neither a primitive nor an array —
object, enum, map or union alike, named or not — is emitted as an
exported binding aliasing the underscore-prefixed identity of its
binding name; no inline-expression case exists for map or union roots. -/
theorem top_level_alias_policy (nm : NamerCtx) (nid : Nat) (t : PType)
    (h1 : t.isPrimitive = false) (h2 : t.kind ≠ "array") :
    topLevelLines nm (nid, t) =
      [[Tok.lit "export const ", Tok.name nid, Tok.lit " = _", Tok.name nid, Tok.lit ";"]] := by
  unfold topLevelLines
  simp [h1, h2]

/-- Witness for the amended C3 theorem at a concrete unnamed map root. -/
theorem top_level_alias_policy_witness :
    ((PType.mapT .stringT).isPrimitive = false ∧ (PType.mapT .stringT).kind ≠ "array")
    ∧ topLevelLines nm0 (5, .mapT .stringT) =
      [[Tok.lit "export const ", Tok.name 5, Tok.lit " = _", Tok.name 5, Tok.lit ";"]] :=
  ⟨⟨rfl, by decide⟩, top_level_alias_policy nm0 5 (.mapT .stringT) rfl (by decide)⟩

lemma dropLast_append_of_right_ne_nil {α} (l1 l2 : List α) (h : l2 ≠ []) :
    (l1 ++ l2).dropLast = l1 ++ l2.dropLast :=
  List.dropLast_append_of_ne_nil l1 h

lemma enum_options_eq_litCases (nm : NamerCtx) :
    ∀ cs : List String,
      ((cs.flatMap (fun c =>
        [Tok.lit "\x27", Tok.lit (nm.caseName c), Tok.lit "\x27", Tok.lit ", "])).dropLast)
      = litCases nm cs
  | [] => rfl
  | [_] => rfl
  | c :: c2 :: rest => by
      have ih := enum_options_eq_litCases nm (c2 :: rest)
      rw [List.flatMap_cons]
      rw [dropLast_append_of_right_ne_nil]
      · rw [ih]; rfl
      · rw [List.flatMap_cons]; simp

/-- C5: the emitted enum body is the `oneOfType` combinator over exactly
one quoted literal per declared case, in declared case order; in
particular the enum with cases Red, Green, Blue yields exactly those
three literal-string validators in that order. -/
theorem enum_body_one_literal_per_case (nm : NamerCtx) (e : EnumDef) :
    enumLine nm e =
      [Tok.lit "const _", Tok.name e.id, Tok.lit " = PropTypes.oneOfType(["] ++
        litCases nm e.cases ++ [Tok.lit "]);"]
    ∧ enumLine nm0 { id := 7, cases := ["Red", "Green", "Blue"] } =
      [Tok.lit "const _", Tok.name 7, Tok.lit " = PropTypes.oneOfType([",
       Tok.lit "\x27", Tok.lit "Red", Tok.lit "\x27", Tok.lit ", ",
       Tok.lit "\x27", Tok.lit "Green", Tok.lit "\x27", Tok.lit ", ",
       Tok.lit "\x27", Tok.lit "Blue", Tok.lit "\x27", Tok.lit "]);"] := by
  constructor
  · unfold enumLine
    rw [enum_options_eq_litCases]
  · rfl

lemma foldl_ite_max {β : Type} (p : β → Prop) [DecidablePred p] (v : β → Nat) :
    ∀ (l : List β) (a : Nat),
      l.foldl (fun acc x => if p x then max acc (v x) else acc) a
        = max a (((l.filter (fun x => decide (p x))).map v).foldr max 0)
  | [], a => by simp
  | x :: l, a => by
      by_cases h : p x
      · simp only [List.foldl_cons, if_pos h, List.filter_cons,
          decide_eq_true_eq, h, if_true, List.map_cons, List.foldr_cons]
        rw [foldl_ite_max p v l (max a (v x))]
        omega
      · simp only [List.foldl_cons, if_neg h, List.filter_cons,
          decide_eq_true_eq, h, if_false, List.map_cons, List.foldr_cons]
        rw [foldl_ite_max p v l a]

lemma foldl_max_map {β : Type} (g : β → Nat) :
    ∀ (l : List β) (a : Nat),
      l.foldl (fun acc x => max acc (g x)) a = max a ((l.map g).foldr max 0)
  | [], a => by simp
  | x :: l, a => by
      simp only [List.foldl_cons, List.map_cons, List.foldr_cons]
      rw [foldl_max_map g l (max a (g x))]
      omega

lemma le_foldr_max {l : List Nat} {a : Nat} (h : a ∈ l) : a ≤ l.foldr max 0 := by
  induction l with
  | nil => cases h
  | cons x l ih =>
      rcases List.mem_cons.mp h with h | h
      · subst h; exact Nat.le_max_left _ _
      · exact Nat.le_trans (ih h) (Nat.le_max_right _ _)

lemma foldr_max_le {l : List Nat} {x : Nat} (h : ∀ a ∈ l, a ≤ x) : l.foldr max 0 ≤ x := by
  induction l with
  | nil => exact Nat.zero_le x
  | cons y l ih =>
      simp only [List.foldr_cons]
      exact Nat.max_le.mpr ⟨h y (List.mem_cons_self y l), ih (fun a ha => h a (List.mem_cons_of_mem y ha))⟩

/-- C4 amended: the insertion ordinal computed by the ordering loop is
the maximum, over the already-processed dependencies present in the
output list, of one past that dependency ORIGINAL index in the input
sequence (the value stored in the output list), or 0 when there is no
such dependency. -/
theorem ordinalFor_eq_max_over_original_indices
    (mapKey : List Nat) (order : List Nat) (source : List Tok) :
    ordinalFor mapKey order source =
      ((order.filter (fun d =>
          (source.filter truthy).contains (Tok.name (mapKey.getD d 0)))).map
        (fun d => d + 1)).foldr max 0 := by
  unfold ordinalFor
  have hinner : (fun (ord : Nat) (tok : Tok) =>
      order.foldl (fun o2 depIndex =>
        if tok = Tok.name (mapKey.getD depIndex 0) then max o2 (depIndex + 1) else o2) ord)
    = fun (ord : Nat) (tok : Tok) =>
      max ord (((order.filter (fun d => decide (tok = Tok.name (mapKey.getD d 0)))).map
        (fun d => d + 1)).foldr max 0) := by
    funext ord tok
    exact foldl_ite_max (fun d => tok = Tok.name (mapKey.getD d 0)) (fun d => d + 1) order ord
  rw [hinner, foldl_max_map, Nat.max_comm, Nat.max_eq_left (Nat.zero_le _)]
  apply Nat.le_antisymm
  · apply foldr_max_le
    intro c hc
    obtain ⟨tok, htok, rfl⟩ := List.mem_map.mp hc
    apply foldr_max_le
    intro e he
    obtain ⟨d, hd, rfl⟩ := List.mem_map.mp he
    obtain ⟨hdord, hmatch⟩ := List.mem_filter.mp hd
    have hmatch : tok = Tok.name (mapKey.getD d 0) := by
      simpa using hmatch
    apply le_foldr_max
    apply List.mem_map_of_mem
    apply List.mem_filter.mpr
    refine ⟨hdord, ?_⟩
    have : Tok.name (mapKey.getD d 0) ∈ source.filter truthy := hmatch ▸ htok
    exact List.elem_iff.mpr this
  · apply foldr_max_le
    intro e he
    obtain ⟨d, hd, rfl⟩ := List.mem_map.mp he
    obtain ⟨hdord, hmem⟩ := List.mem_filter.mp hd
    have hmem : Tok.name (mapKey.getD d 0) ∈ source.filter truthy :=
      List.elem_iff.mp hmem
    calc d + 1
        ≤ ((order.filter (fun d2 =>
            decide (Tok.name (mapKey.getD d 0) = Tok.name (mapKey.getD d2 0)))).map
            (fun d2 => d2 + 1)).foldr max 0 := by
            apply le_foldr_max
            apply List.mem_map_of_mem
            exact List.mem_filter.mpr ⟨hdord, by simp⟩
      _ ≤ _ := by
            apply le_foldr_max
            exact List.mem_map_of_mem _ hmem

/-- C4 counterexample: while processing definition 2 of the concrete
graph the output list is [1, 0]; its dependency (definition 0) sits at
position 1 of that list, so the claimed position-based rule yields
ordinal 2, but the loop computes ordinal 1 (one past the original index
of the dependency), and the final orders of the two rules differ. -/
theorem insertion_ordinal_uses_original_index :
    computeOrder [0, 1] (cBodies.take 2) = [1, 0]
    ∧ ordinalFor cKeys [1, 0] (cBodies.getD 2 []) = 1
    ∧ claimedOrdinalFor cKeys [1, 0] (cBodies.getD 2 []) = 2
    ∧ ordinalFor cKeys [1, 0] (cBodies.getD 2 [])
      ≠ claimedOrdinalFor cKeys [1, 0] (cBodies.getD 2 [])
    ∧ computeOrder cKeys cBodies = [1, 2, 0]
    ∧ claimedComputeOrder cKeys cBodies = [1, 0, 2] := by
  decide

/-- C1 counterexample: the concrete three-object graph is acyclic (the
rank function decreases along its single reference edge, from C to A),
yet the ordering loop outputs [1, 2, 0], in which definition 2 (C)
appears before definition 0 (A) that its body references. -/
theorem orderer_output_not_topological :
    (∀ i ∈ [0, 1, 2], ∀ j ∈ [0, 1, 2],
      refsB cKeys cBodies i j = true → cRank j < cRank i)
    ∧ refsB cKeys cBodies 2 0 = true
    ∧ computeOrder cKeys cBodies = [1, 2, 0]
    ∧ (computeOrder cKeys cBodies).indexOf 2 < (computeOrder cKeys cBodies).indexOf 0 := by
  decide

lemma orderInsert_perm (order : List Nat) (k i : Nat) :
    (orderInsert order k i).Perm (i :: order) := by
  unfold orderInsert
  calc (order.take k ++ i :: order.drop k).Perm (i :: (order.take k ++ order.drop k)) :=
        List.perm_middle
    _ = (i :: order) := by rw [List.take_append_drop]

lemma foldl_orderInsert_perm (f : List Nat → Nat → Nat) :
    ∀ (l acc : List Nat),
      (l.foldl (fun order index => orderInsert order (f order index) index) acc).Perm (acc ++ l)
  | [], acc => by simp
  | i :: l, acc => by
      simp only [List.foldl_cons]
      refine (foldl_orderInsert_perm f l _).trans ?_
      refine (List.Perm.append_right l (orderInsert_perm acc (f acc i) i)).trans ?_
      exact List.perm_middle.symm

/-- Shared fact: the ordering loop outputs a permutation of the original
indices of the definitions. -/
lemma computeOrder_perm_range (mapKey : List Nat) (mapValue : List (List Tok)) :
    (computeOrder mapKey mapValue).Perm (List.range mapKey.length) := by
  unfold computeOrder
  have := foldl_orderInsert_perm
    (fun order index => ordinalFor mapKey order (mapValue.getD index []))
    (List.range mapKey.length) []
  simpa using this

/-- C1 amended: the Emission Orderer always outputs a permutation of the
input definitions, but even for an acyclic reference graph the output
need not place every definition after the definitions its body
references (see the counterexample). -/
theorem orderer_outputs_permutation (mapKey : List Nat) (mapValue : List (List Tok)) :
    (computeOrder mapKey mapValue).Perm (List.range mapKey.length) :=
  computeOrder_perm_range mapKey mapValue

lemma map_range_getD {α : Type} (l : List α) (d : α) :
    (List.range l.length).map (fun i => l.getD i d) = l := by
  induction l with
  | nil => simp
  | cons x l ih =>
      rw [List.length_cons, List.range_succ_eq_map, List.map_cons, List.map_map]
      have hcomp : ((fun i => (x :: l).getD i d) ∘ Nat.succ) = fun i => l.getD i d := by
        funext i
        simp
      simp only [List.getD_cons_zero, hcomp, ih]

lemma mem_nameIds {l : List Tok} {i : Nat} : i ∈ nameIds l ↔ Tok.name i ∈ l := by
  unfold nameIds
  rw [List.mem_filterMap]
  constructor
  · rintro ⟨t, ht, hmatch⟩
    cases t with
    | lit s => simp at hmatch
    | name j =>
        simp only [Option.some.injEq] at hmatch
        subst hmatch
        exact ht
  · intro h
    exact ⟨Tok.name i, h, rfl⟩

/-- C6: the emitted output is the declaration prefix (a placeholder for
every object identity and a constant for every enum identity) followed
by the object bodies in the computed order and then the top-level
bindings; every object body is emitted exactly once (the ordered bodies
are a permutation of the synthesized bodies, so the pass also terminates
on mutually recursive graphs); every named identity of the graph is
declared by a line of the prefix; and every name referenced from a body
is declared by a line of the prefix, hence earlier in the output. -/
theorem hoisted_declarations_precede_bodies (nm : NamerCtx) (g : Graph)
    (h : wellFormedRefs nm g = true) :
    emitTypes nm g =
        hoistDecls nm g ++ (orderedBodies nm g).flatten ++
          g.topLevels.flatMap (topLevelLines nm)
    ∧ (orderedBodies nm g).Perm (g.objects.map (objectBodyLines nm))
    ∧ (∀ i ∈ g.objects.map (fun o => o.id) ++ g.enums.map (fun e => e.id),
        ∃ dl ∈ hoistDecls nm g, Tok.name i ∈ dl)
    ∧ (∀ i, Tok.name i ∈ ((orderedBodies nm g).flatten).flatten →
        ∃ dl ∈ hoistDecls nm g, Tok.name i ∈ dl) := by
  have hperm : (orderedBodies nm g).Perm (g.objects.map (objectBodyLines nm)) := by
    unfold orderedBodies
    have hp := computeOrder_perm_range (g.objects.map (fun o => o.id))
      ((g.objects.map (objectBodyLines nm)).map List.flatten)
    have := hp.map (fun i => (g.objects.map (objectBodyLines nm)).getD i [])
    refine this.trans ?_
    rw [List.length_map]
    have hlen : g.objects.length = (g.objects.map (objectBodyLines nm)).length := by
      rw [List.length_map]
    rw [hlen, map_range_getD]
  have hdecl : ∀ i ∈ g.objects.map (fun o => o.id) ++ g.enums.map (fun e => e.id),
      ∃ dl ∈ hoistDecls nm g, Tok.name i ∈ dl := by
    intro i hi
    rcases List.mem_append.mp hi with hobj | henu
    · obtain ⟨o, ho, rfl⟩ := List.mem_map.mp hobj
      refine ⟨hoistLine o, ?_, ?_⟩
      · exact List.mem_append.mpr (Or.inl (List.mem_map_of_mem hoistLine ho))
      · simp [hoistLine]
    · obtain ⟨e, he, rfl⟩ := List.mem_map.mp henu
      refine ⟨enumLine nm e, ?_, ?_⟩
      · exact List.mem_append.mpr (Or.inr (List.mem_map_of_mem (enumLine nm) he))
      · simp [enumLine]
  refine ⟨?_, hperm, hdecl, ?_⟩
  · simp only [emitTypes, hoistDecls, orderedBodies, List.append_assoc]
    rfl
  · intro i hi
    obtain ⟨l, hl, hil⟩ := List.mem_flatten.mp hi
    obtain ⟨B, hB, hlB⟩ := List.mem_flatten.mp hl
    have hB2 : B ∈ g.objects.map (objectBodyLines nm) := hperm.mem_iff.mp hB
    obtain ⟨o, ho, rfl⟩ := List.mem_map.mp hB2
    have htok : Tok.name i ∈ objectBodyTokens nm o := by
      unfold objectBodyTokens
      exact List.mem_flatten.mpr ⟨l, hlB, hil⟩
    unfold wellFormedRefs at h
    have h1 := List.all_eq_true.mp h o ho
    have h2 := List.all_eq_true.mp h1 i (mem_nameIds.mpr htok)
    exact hdecl i (List.elem_iff.mp h2)

/-- Witness for C6 at the concrete mutually recursive graph `mGraph`
(object A references B and B references A). -/
theorem hoisted_declarations_precede_bodies_witness :
    wellFormedRefs nm0 mGraph = true
    ∧ (emitTypes nm0 mGraph =
        hoistDecls nm0 mGraph ++ (orderedBodies nm0 mGraph).flatten ++
          mGraph.topLevels.flatMap (topLevelLines nm0)
      ∧ (orderedBodies nm0 mGraph).Perm (mGraph.objects.map (objectBodyLines nm0))
      ∧ (∀ i ∈ mGraph.objects.map (fun o => o.id) ++ mGraph.enums.map (fun e => e.id),
          ∃ dl ∈ hoistDecls nm0 mGraph, Tok.name i ∈ dl)
      ∧ (∀ i, Tok.name i ∈ ((orderedBodies nm0 mGraph).flatten).flatten →
          ∃ dl ∈ hoistDecls nm0 mGraph, Tok.name i ∈ dl)) :=
  ⟨by decide, hoisted_declarations_precede_bodies nm0 mGraph (by decide)⟩

/-- C8: the emission pass is deterministic: it is a pure function of the
graph and the namer, so two runs over the same graph with namers of
identical behaviour produce byte-identical output text. -/
theorem emission_pass_deterministic (g : Graph) (nm1 nm2 : NamerCtx)
    (h1 : ∀ i, nm1.typeName i = nm2.typeName i)
    (h2 : ∀ s, nm1.caseName s = nm2.caseName s)
    (h3 : ∀ s, nm1.escape s = nm2.escape s) :
    renderOutput nm1 g = renderOutput nm2 g := by
  have heq : nm1 = nm2 := by
    cases nm1
    cases nm2
    simp only [NamerCtx.mk.injEq]
    exact ⟨funext h1, funext h2, funext h3⟩
  rw [heq]

/-- Witness for C8: two independently constructed namers of identical
behaviour give byte-identical output on the mutual-recursion graph. -/
theorem emission_pass_deterministic_witness :
    ((∀ i, nm0.typeName i = nm0b.typeName i)
      ∧ (∀ s, nm0.caseName s = nm0b.caseName s)
      ∧ (∀ s, nm0.escape s = nm0b.escape s))
    ∧ renderOutput nm0 mGraph = renderOutput nm0b mGraph :=
  ⟨⟨fun _ => rfl, fun _ => rfl, fun _ => rfl⟩,
    emission_pass_deterministic mGraph nm0 nm0b
      (fun _ => rfl) (fun _ => rfl) (fun _ => rfl)⟩

lemma panicFreeL_ofList : ∀ L : List Sourcelike,
    panicFreeL (SLList.ofList L) = L.all panicFree
  | [] => rfl
  | x :: xs => by
      simp [SLList.ofList, panicFreeL, panicFreeL_ofList xs]

lemma all_intersperse {α : Type} (p : α → Bool) (sep : α) (hsep : p sep = true) :
    ∀ l : List α, l.all p = true → (List.intersperse sep l).all p = true
  | [], _ => by simp
  | [x], h => by simpa using h
  | x :: y :: rest, h => by
      have hx : p x = true := by
        simp only [List.all_cons, Bool.and_eq_true] at h
        exact h.1
      have hrest : (y :: rest).all p = true := by
        simp only [List.all_cons, Bool.and_eq_true] at h ⊢
        exact h.2
      have ih := all_intersperse p sep hsep (y :: rest) hrest
      simp [List.intersperse, List.all_cons, hsep, hx, ih]

mutual
theorem panicFree_typeMap_aux : ∀ (t : PType) (req : Bool), panicFree (typeMapTypeFor t req) = true
  | .anyT, req => by cases req <;> rfl
  | .nullT, req => by cases req <;> rfl
  | .boolT, req => by cases req <;> rfl
  | .integerT, req => by cases req <;> rfl
  | .doubleT, req => by cases req <;> rfl
  | .stringT, req => by cases req <;> rfl
  | .transformedStringT, req => by cases req <;> rfl
  | .classT _, req => by cases req <;> rfl
  | .enumT _, req => by cases req <;> rfl
  | .mapT _, req => by cases req <;> rfl
  | .arrayT items, req => by
      have ih := panicFree_typeMap_aux items false
      cases req <;>
        simp [typeMapTypeFor, sl, SLList.ofList, panicFree, panicFreeL, ih, panicMsg, PType.kind]
  | .unionT ms, req => by
      have ih := panicFree_children_aux ms
      have hint := all_intersperse panicFree (Sourcelike.lit ", ") (by rfl) (typeMapChildren ms) ih
      cases req <;>
        simp [typeMapTypeFor, sl, panicFree, panicFreeL, panicFreeL_ofList, List.all_append,
          hint, panicMsg, PType.kind]

theorem panicFree_children_aux : ∀ ms : PTypeList, (typeMapChildren ms).all panicFree = true
  | .nil => by simp [typeMapChildren]
  | .cons t ts => by
      simp [typeMapChildren, List.all_cons, panicFree_typeMap_aux t false, panicFree_children_aux ts]
end

/-- C9: the synthesizer is total over every type variant — the Lean
embedding is a total function, and for every variant and every required
flag the synthesized expression never contains the panic marker of the
class and enum branches inside the match, because named kinds are
returned by the guard before the match is reached. -/
theorem typeMapTypeFor_total_no_panic (t : PType) (req : Bool) :
    panicFree (typeMapTypeFor t req) = true :=
  panicFree_typeMap_aux t req
